import Mathlib

/-!
# Heat-seal demos: heat field, power fluctuation and stepped rotation

A shallow embedding of the computational core of `src/Suprem_heat_seal/4bed.js`,
`src/Suprem_heat_seal/main.js` and `src/Suprem_heat_seal/main4.js`.

JavaScript numbers are idealised as elements of a linearly ordered field `α`
(the theorems take `α := ℝ`); rounding, `NaN` and infinities are outside the
model.  The functions of the JavaScript `Math` object that have no field
counterpart are parameters of the definitions that call them: `expf` stands for
`Math.exp`, `sqrtf` for `Math.sqrt`, `pi` for `Math.PI`, and `rand : ℕ → α` is
the stream of values returned by successive calls of `Math.random`, read
through an explicit call counter.  The theorems instantiate them with
`Real.exp`, `Real.sqrt` and `Real.pi`.
-/

namespace HeatSeal

/-- A coil literal `{ radius, power }`. -/
structure Coil (α : Type) where
  radius : α
  power : α
deriving DecidableEq, Repr

/-- The triple written by `col.setXYZ(i, r, g, b)`. -/
structure Color (α : Type) where
  r : α
  g : α
  b : α
deriving DecidableEq, Repr

/-- A `forEach` whose body consumes one `Math.random()` value per element:
`k` is the number of draws made so far; the result carries the new count. -/
def forEachRand {α β : Type} (f : α → β → β) (rand : ℕ → α) : ℕ → List β → List β × ℕ
  | k, [] => ([], k)
  | k, x :: xs =>
    let rest := forEachRand f rand (k + 1) xs
    (f (rand k) x :: rest.1, rest.2)

section Library

variable {α : Type} [LinearOrderedField α]

/-- The function `THREE.MathUtils.clamp(value, min, max)` of three.js, which is
`Math.max(min, Math.min(max, value))`. -/
def clamp (value lo hi : α) : α := max lo (min hi value)

/-- The function `THREE.MathUtils.degToRad(degrees)` of three.js, which is
`degrees * DEG2RAD` with `DEG2RAD = Math.PI / 180`. -/
def degToRad (pi degrees : α) : α := degrees * (pi / 180)

/-- The draw `const fluct = Math.random() * 40 - 20;` of `4bed.js` (l.223) and
`main.js` (l.137), for the value `u` returned by `Math.random()`. -/
def fluct (u : α) : α := u * 40 - 20

/-- The function `Math.sign`. -/
def mathSign (x : α) : α := if 0 < x then 1 else if x < 0 then -1 else 0

end Library

/-! ## Heat field -/

section Heat

variable {α : Type} [LinearOrderedField α]

/-- The accumulation `let heat = 0; coils.forEach(c => { const dr = r - c.radius;
heat += c.power * Math.exp(-(dr * dr) / (spread * spread)); })` of `4bed.js`
(l.195-199) and `main.js` (l.118-122). -/
def heatSum (expf : α → α) (spread : α) (coils : List (Coil α)) (r : α) : α :=
  coils.foldl
    (fun heat c =>
      let dr := r - c.radius
      heat + c.power * expf ((-(dr * dr)) / (spread * spread)))
    0

/-- The accumulation of `main4.js` (l.126-131), whose `forEach` callback also
reads the index: `const boost = idx === 0 ? 1.6 : 1.0;
heat += boost * c.power * Math.exp(-(dr * dr) / (spread * spread));`. -/
def heatSumBoost (expf : α → α) (spread : α) (coils : List (Coil α)) (r : α) : α :=
  coils.enum.foldl
    (fun heat ic =>
      let dr := r - ic.2.radius
      let boost : α := if ic.1 = 0 then 1.6 else 1.0
      heat + boost * ic.2.power * expf ((-(dr * dr)) / (spread * spread)))
    0

/-- The colour written for a summed heat value:
`const t = THREE.MathUtils.clamp(heat / 300, 0, 1);
col.setXYZ(i, t, 1 - Math.abs(t - 0.5) * 2, 1 - t);`
(the same in the three scripts). -/
def heatColor (heat : α) : Color α :=
  let t := clamp (heat / 300) 0 1
  ⟨t, 1 - |t - 0.5| * 2, 1 - t⟩

end Heat

/-! ## Stepped rotation (`4bed.js`) -/

/-- The constants of the rotation settings (l.41-47). -/
structure RotationSettings (α : Type) where
  totalSteps : ℕ
  stepAngle : α
  waitTime : α
  rotationSpeed : α

/-- The mutable variables of the rotation: `currentStep`, `targetRotationY`,
`lastStepTime` (l.41-45) and `rotatingGroup.rotation.y`. -/
structure RotationState (α : Type) where
  currentStep : ℕ
  targetRotationY : α
  lastStepTime : α
  rotationY : α

section Rotation

variable {α : Type} [LinearOrderedField α]

/-- The first statement group of `animate` (l.235-240):
`if (now - lastStepTime >= waitTime) { targetRotationY += stepAngle;
currentStep = (currentStep + 1) % totalSteps; lastStepTime = now; }`. -/
def startStep (cfg : RotationSettings α) (now : α) (s : RotationState α) : RotationState α :=
  if now - s.lastStepTime ≥ cfg.waitTime then
    { s with
      targetRotationY := s.targetRotationY + cfg.stepAngle
      currentStep := (s.currentStep + 1) % cfg.totalSteps
      lastStepTime := now }
  else s

/-- The second statement group of `animate` (l.242-249):
`const delta = targetRotationY - rotatingGroup.rotation.y;
if (Math.abs(delta) > 0.001) { const step = Math.sign(delta) *
Math.min(Math.abs(delta), rotationSpeed); rotatingGroup.rotation.y += step; }
else { rotatingGroup.rotation.y = targetRotationY; }`. -/
def rotateTowardsTarget (cfg : RotationSettings α) (s : RotationState α) : RotationState α :=
  let delta := s.targetRotationY - s.rotationY
  if |delta| > 0.001 then
    let step := mathSign delta * min |delta| cfg.rotationSpeed
    { s with rotationY := s.rotationY + step }
  else
    { s with rotationY := s.targetRotationY }

/-- The rotation part of one call of `animate` at time `now` (l.233-249). -/
def animateRotation (cfg : RotationSettings α) (now : α) (s : RotationState α) :
    RotationState α :=
  rotateTowardsTarget cfg (startStep cfg now s)

/-- The rotation state after the calls of `animate` at the given times, in order. -/
def animateRotationAll (cfg : RotationSettings α) (times : List α) (s : RotationState α) :
    RotationState α :=
  times.foldl (fun st now => animateRotation cfg now st) s

/-- The timestamps of `n` ticks spaced exactly `waitTime` apart, the first one
exactly `waitTime` after `last`: `last + waitTime, ..., last + n * waitTime`. -/
def cadenceTimes (waitTime last : α) (n : ℕ) : List α :=
  (List.range n).map fun i => last + ((i : α) + 1) * waitTime

end Rotation

namespace Bed4

variable {α : Type} [LinearOrderedField α]

/-- The literal `const spread = 2.8;` of `updateHeatMaps`. -/
def spread : α := 2.8

/-- The `coils` literal of `createBlock` (l.82-87). -/
def coils : List (Coil α) :=
  [⟨2.5, 300⟩, ⟨4.0, 180⟩, ⟨5.5, 150⟩, ⟨6.5, 120⟩]

/-- The part of a block that the per-frame computations read and write: its
coils, the local `(x, y)` coordinates of the vertices of its plane, and the
colour attribute of that plane. -/
structure Block (α : Type) where
  coils : List (Coil α)
  pos : List (α × α)
  col : List (Color α)

/-- The heat of a sample point at radial distance `r` (l.195-199). -/
def heatAt (expf : α → α) (coils : List (Coil α)) (r : α) : α :=
  heatSum expf spread coils r

/-- The colour of a sample point at radial distance `r` (l.195-202). -/
def colorAt (expf : α → α) (coils : List (Coil α)) (r : α) : Color α :=
  heatColor (heatAt expf coils r)

/-- The body of the vertex loop of `updateHeatMaps` (l.191-202). -/
def vertexColor (sqrtf expf : α → α) (coils : List (Coil α)) (localX localZ : α) : Color α :=
  let r := sqrtf (localX * localX + localZ * localZ)
  colorAt expf coils r

/-- The function `updateHeatMaps` (l.182-217), without the text labels. -/
def updateHeatMaps (sqrtf expf : α → α) (blocks : List (Block α)) : List (Block α) :=
  blocks.map fun block =>
    { block with
      col := block.pos.map fun p => vertexColor sqrtf expf block.coils p.1 p.2 }

/-- The body of the inner `forEach` of `simulateRandomTemperatures` (l.223-224):
`const fluct = Math.random() * 40 - 20;
c.power = Math.max(50, Math.min(300, c.power + fluct));`. -/
def fluctuate (u : α) (c : Coil α) : Coil α :=
  { c with power := max 50 (min 300 (c.power + fluct u)) }

/-- The function `simulateRandomTemperatures` (l.220-227). -/
def simulateRandomTemperatures (rand : ℕ → α) : ℕ → List (Block α) → List (Block α) × ℕ
  | k, [] => ([], k)
  | k, block :: rest =>
    let cs := forEachRand fluctuate rand k block.coils
    let bs := simulateRandomTemperatures rand cs.2 rest
    ({ block with coils := cs.1 } :: bs.1, bs.2)

/-- The blocks after `n` successive calls of `simulateRandomTemperatures`. -/
def simulateTicks (rand : ℕ → α) : ℕ → ℕ → List (Block α) → List (Block α) × ℕ
  | 0, k, blocks => (blocks, k)
  | n + 1, k, blocks =>
    let s := simulateRandomTemperatures rand k blocks
    simulateTicks rand n s.2 s.1

/-- The rotation settings of `4bed.js` (l.42-47): `totalSteps = 5`,
`stepAngle = THREE.MathUtils.degToRad(72)`, `waitTime = 5000`,
`rotationSpeed = 0.02`. -/
def settings (pi : α) : RotationSettings α :=
  { totalSteps := 5, stepAngle := degToRad pi 72, waitTime := 5000, rotationSpeed := 0.02 }

/-- The variables that `animate` reads and writes: the rotation, the blocks and
the number of `Math.random()` calls made so far. -/
structure Scene (α : Type) where
  rotation : RotationState α
  blocks : List (Block α)
  draws : ℕ

/-- One call of `animate` at time `now` (l.230-257), without the rendering. -/
def animate (pi : α) (sqrtf expf : α → α) (rand : ℕ → α) (now : α) (w : Scene α) : Scene α :=
  let rotation := animateRotation (settings pi) now w.rotation
  let sim := simulateRandomTemperatures rand w.draws w.blocks
  { rotation := rotation, blocks := updateHeatMaps sqrtf expf sim.1, draws := sim.2 }

end Bed4

namespace Main

variable {α : Type} [LinearOrderedField α]

/-- The literal `const spread = 2.8;` of `updateHeatMap`. -/
def spread : α := 2.8

/-- The `coils` literal of `main.js` (l.61-66). -/
def coils : List (Coil α) :=
  [⟨2.5, 200⟩, ⟨4.0, 180⟩, ⟨5.5, 150⟩, ⟨6.5, 120⟩]

/-- The heat of a sample point at radial distance `r` (l.118-122). -/
def heatAt (expf : α → α) (coils : List (Coil α)) (r : α) : α :=
  heatSum expf spread coils r

/-- The colour of a sample point at radial distance `r` (l.118-129). -/
def colorAt (expf : α → α) (coils : List (Coil α)) (r : α) : Color α :=
  heatColor (heatAt expf coils r)

/-- The body of the vertex loop of `updateHeatMap` (l.113-129). -/
def vertexColor (sqrtf expf : α → α) (coils : List (Coil α)) (x z : α) : Color α :=
  let r := sqrtf (x * x + z * z)
  colorAt expf coils r

/-- The function `updateHeatMap` (l.107-132): the new colour attribute. -/
def updateHeatMap (sqrtf expf : α → α) (coils : List (Coil α)) (pos : List (α × α)) :
    List (Color α) :=
  pos.map fun p => vertexColor sqrtf expf coils p.1 p.2

/-- The body of the `forEach` of `simulateRandomTemperature` (l.137-138):
`const fluct = Math.random() * 40 - 20;
c.power = Math.max(50, Math.min(250, c.power + fluct));`. -/
def fluctuate (u : α) (c : Coil α) : Coil α :=
  { c with power := max 50 (min 250 (c.power + fluct u)) }

/-- The function `simulateRandomTemperature` (l.135-140). -/
def simulateRandomTemperature (rand : ℕ → α) (k : ℕ) (coils : List (Coil α)) :
    List (Coil α) × ℕ :=
  forEachRand fluctuate rand k coils

/-- The coils after `n` successive calls of `simulateRandomTemperature`. -/
def simulateTicks (rand : ℕ → α) : ℕ → ℕ → List (Coil α) → List (Coil α) × ℕ
  | 0, k, coils => (coils, k)
  | n + 1, k, coils =>
    let s := simulateRandomTemperature rand k coils
    simulateTicks rand n s.2 s.1

end Main

namespace Main4

variable {α : Type} [LinearOrderedField α]

/-- The literal `const spread = 2.2;` of `updateHeatMap`. -/
def spread : α := 2.2

/-- The `coils` literal of `main4.js` (l.68-73). -/
def coils : List (Coil α) :=
  [⟨2.5, 800⟩, ⟨4.0, 240⟩, ⟨5.5, 200⟩, ⟨6.5, 160⟩]

/-- The heat of a sample point at radial distance `r` (l.126-131). -/
def heatAt (expf : α → α) (coils : List (Coil α)) (r : α) : α :=
  heatSumBoost expf spread coils r

/-- The colour of a sample point at radial distance `r` (l.126-140). -/
def colorAt (expf : α → α) (coils : List (Coil α)) (r : α) : Color α :=
  heatColor (heatAt expf coils r)

/-- The body of the vertex loop of `updateHeatMap` (l.122-140). -/
def vertexColor (sqrtf expf : α → α) (coils : List (Coil α)) (x z : α) : Color α :=
  let r := sqrtf (x * x + z * z)
  colorAt expf coils r

/-- The function `updateHeatMap` (l.116-143): the new colour attribute. -/
def updateHeatMap (sqrtf expf : α → α) (coils : List (Coil α)) (pos : List (α × α)) :
    List (Color α) :=
  pos.map fun p => vertexColor sqrtf expf coils p.1 p.2

end Main4

section Predicates

variable {α : Type} [LinearOrderedField α]

/-- Every coil of every block has its power in `[lo, hi]`. -/
def BlocksWithin (lo hi : α) (blocks : List (Bed4.Block α)) : Prop :=
  ∀ b ∈ blocks, ∀ c ∈ b.coils, lo ≤ c.power ∧ c.power ≤ hi

/-- Every coil has its power in `[lo, hi]`. -/
def CoilsWithin (lo hi : α) (coils : List (Coil α)) : Prop :=
  ∀ c ∈ coils, lo ≤ c.power ∧ c.power ≤ hi

end Predicates

/-! ## Power fluctuation -/

theorem forEachRand_mem {α β : Type} (f : α → β → β) (rand : ℕ → α) (xs : List β) (k : ℕ)
    (y : β) (hy : y ∈ (forEachRand f rand k xs).1) : ∃ u, ∃ x ∈ xs, y = f u x := by
  induction xs generalizing k with
  | nil => simp [forEachRand] at hy
  | cons x xs ih =>
    simp only [forEachRand, List.mem_cons] at hy
    rcases hy with rfl | hy
    · exact ⟨rand k, x, List.mem_cons_self _ _, rfl⟩
    · obtain ⟨u, x', hx', rfl⟩ := ih (k + 1) hy
      exact ⟨u, x', List.mem_cons_of_mem _ hx', rfl⟩

section FluctuationLemmas

variable {α : Type} [LinearOrderedField α]

theorem bed4_fluctuate_within (u : α) (c : Coil α) :
    50 ≤ (Bed4.fluctuate u c).power ∧ (Bed4.fluctuate u c).power ≤ 300 := by
  simp only [Bed4.fluctuate]
  exact ⟨le_max_left _ _, max_le (by norm_num) (min_le_left _ _)⟩

theorem main_fluctuate_within (u : α) (c : Coil α) :
    50 ≤ (Main.fluctuate u c).power ∧ (Main.fluctuate u c).power ≤ 250 := by
  simp only [Main.fluctuate]
  exact ⟨le_max_left _ _, max_le (by norm_num) (min_le_left _ _)⟩

theorem bed4_simulateRandomTemperatures_within (rand : ℕ → α) (k : ℕ)
    (blocks : List (Bed4.Block α)) :
    BlocksWithin 50 300 (Bed4.simulateRandomTemperatures rand k blocks).1 := by
  induction blocks generalizing k with
  | nil => intro b hb; simp [Bed4.simulateRandomTemperatures] at hb
  | cons block rest ih =>
    intro b hb c hc
    simp only [Bed4.simulateRandomTemperatures, List.mem_cons] at hb
    rcases hb with rfl | hb
    · obtain ⟨u, x, _, rfl⟩ := forEachRand_mem _ _ _ _ _ hc
      exact bed4_fluctuate_within u x
    · exact ih _ b hb c hc

theorem bed4_simulateTicks_within (rand : ℕ → α) (n k : ℕ) (blocks : List (Bed4.Block α))
    (h : 1 ≤ n ∨ BlocksWithin 50 300 blocks) :
    BlocksWithin 50 300 (Bed4.simulateTicks rand n k blocks).1 := by
  induction n generalizing k blocks with
  | zero =>
    rcases h with h | h
    · omega
    · simpa [Bed4.simulateTicks] using h
  | succ n ih =>
    simp only [Bed4.simulateTicks]
    exact ih _ _ (Or.inr (bed4_simulateRandomTemperatures_within rand k blocks))

theorem main_simulateRandomTemperature_within (rand : ℕ → α) (k : ℕ) (coils : List (Coil α)) :
    CoilsWithin 50 250 (Main.simulateRandomTemperature rand k coils).1 := by
  intro c hc
  obtain ⟨u, x, _, rfl⟩ := forEachRand_mem _ _ _ _ _ hc
  exact main_fluctuate_within u x

theorem main_simulateTicks_within (rand : ℕ → α) (n k : ℕ) (coils : List (Coil α))
    (h : 1 ≤ n ∨ CoilsWithin 50 250 coils) :
    CoilsWithin 50 250 (Main.simulateTicks rand n k coils).1 := by
  induction n generalizing k coils with
  | zero =>
    rcases h with h | h
    · omega
    · simpa [Main.simulateTicks] using h
  | succ n ih =>
    simp only [Main.simulateTicks]
    exact ih _ _ (Or.inr (main_simulateRandomTemperature_within rand k coils))

theorem bed4_coils_within : CoilsWithin (50 : α) 300 Bed4.coils := by
  intro c hc
  simp only [Bed4.coils, List.mem_cons, List.mem_singleton, List.not_mem_nil, or_false] at hc
  rcases hc with rfl | rfl | rfl | rfl <;> norm_num

theorem main_coils_within : CoilsWithin (50 : α) 250 Main.coils := by
  intro c hc
  simp only [Main.coils, List.mem_cons, List.mem_singleton, List.not_mem_nil, or_false] at hc
  rcases hc with rfl | rfl | rfl | rfl <;> norm_num

theorem fluct_range (u : α) (hu0 : 0 ≤ u) (hu1 : u < 1) : -20 ≤ fluct u ∧ fluct u < 20 := by
  simp only [fluct]
  constructor <;> linarith

theorem clamped_step_le (lo hi p f : α) (hlo : lo ≤ p) (hhi : p ≤ hi) :
    |max lo (min hi (p + f)) - p| ≤ |f| := by
  rw [abs_le]
  have h1 := neg_abs_le f
  have h2 := le_abs_self f
  simp only [max_def, min_def]
  split_ifs <;> constructor <;> linarith

end FluctuationLemmas

/-- C1. PowerFluctuator range invariant.  For every stream of random draws, every
call counter and every number `n ≥ 1` of ticks: (1) from arbitrary starting
powers, after the `n`-th call of `simulateRandomTemperatures` (`4bed.js`) every
coil power lies in `[50, 300]`; (2) after the `n`-th call of
`simulateRandomTemperature` (`main.js`) every coil power lies in `[50, 250]`;
(3), (4) the initial coil powers of the two scripts are already in these ranges;
(5), (6) hence from the initial coils the bound holds after any number `m ≥ 0` of
ticks.  The bound holds for all draws, in particular for draws in `[0, 1)`. -/
theorem C1_power_range_invariant (rand : ℕ → ℝ) (n k : ℕ) (hn : 1 ≤ n) :
    (∀ blocks : List (Bed4.Block ℝ), ∀ b ∈ (Bed4.simulateTicks rand n k blocks).1,
        ∀ c ∈ b.coils, 50 ≤ c.power ∧ c.power ≤ 300) ∧
    (∀ coils : List (Coil ℝ), ∀ c ∈ (Main.simulateTicks rand n k coils).1,
        50 ≤ c.power ∧ c.power ≤ 250) ∧
    (∀ c ∈ (Bed4.coils : List (Coil ℝ)), 50 ≤ c.power ∧ c.power ≤ 300) ∧
    (∀ c ∈ (Main.coils : List (Coil ℝ)), 50 ≤ c.power ∧ c.power ≤ 250) ∧
    (∀ (m : ℕ) (blocks : List (Bed4.Block ℝ)), (∀ b ∈ blocks, b.coils = Bed4.coils) →
        ∀ b ∈ (Bed4.simulateTicks rand m k blocks).1,
          ∀ c ∈ b.coils, 50 ≤ c.power ∧ c.power ≤ 300) ∧
    (∀ m : ℕ, ∀ c ∈ (Main.simulateTicks rand m k Main.coils).1,
        50 ≤ c.power ∧ c.power ≤ 250) := by
  refine ⟨?_, ?_, bed4_coils_within, main_coils_within, ?_, ?_⟩
  · exact fun blocks => bed4_simulateTicks_within rand n k blocks (Or.inl hn)
  · exact fun coils => main_simulateTicks_within rand n k coils (Or.inl hn)
  · intro m blocks hb
    refine bed4_simulateTicks_within rand m k blocks (Or.inr ?_)
    intro b hbm c hc
    rw [hb b hbm] at hc
    exact bed4_coils_within c hc
  · exact fun m => main_simulateTicks_within rand m k Main.coils (Or.inr main_coils_within)

/-- Witness of C1: two ticks with every draw equal to `0.9`, from one block
whose only coil has power `1000` (`4bed.js`) and from one coil of power `0`
(`main.js`). -/
theorem C1_power_range_invariant_witness :
    (1 ≤ 2) ∧
    (Bed4.simulateTicks (fun _ => (0.9 : ℝ)) 2 0 [⟨[⟨2.5, 1000⟩], [], []⟩]).1.map
        (fun b => b.coils.map Coil.power) = [[300]] ∧
    (Main.simulateTicks (fun _ => (0.9 : ℝ)) 2 0 [⟨2.5, 0⟩]).1.map Coil.power = [66] ∧
    (∀ b ∈ (Bed4.simulateTicks (fun _ => (0.9 : ℝ)) 2 0 [⟨[⟨2.5, 1000⟩], [], []⟩]).1,
        ∀ c ∈ b.coils, 50 ≤ c.power ∧ c.power ≤ 300) := by
  refine ⟨by norm_num, ?_, ?_,
    (C1_power_range_invariant (fun _ => (0.9 : ℝ)) 2 0 (by norm_num)).1 _⟩
  · norm_num [Bed4.simulateTicks, Bed4.simulateRandomTemperatures, forEachRand, Bed4.fluctuate, fluct]
  · norm_num [Main.simulateTicks, Main.simulateRandomTemperature, forEachRand, Main.fluctuate, fluct]

/-! ## Colour range -/

section ColourLemmas

variable {α : Type} [LinearOrderedField α]

theorem clamp_unit_range (x : α) : 0 ≤ clamp x 0 1 ∧ clamp x 0 1 ≤ 1 := by
  simp only [clamp]
  exact ⟨le_max_left _ _, max_le zero_le_one (min_le_left _ _)⟩

theorem heatColor_channels (heat : α) :
    (0 ≤ (heatColor heat).r ∧ (heatColor heat).r ≤ 1) ∧
    (0 ≤ (heatColor heat).g ∧ (heatColor heat).g ≤ 1) ∧
    (0 ≤ (heatColor heat).b ∧ (heatColor heat).b ≤ 1) := by
  obtain ⟨h0, h1⟩ := clamp_unit_range (heat / 300)
  simp only [heatColor]
  have habs : |clamp (heat / 300) 0 1 - 0.5| ≤ 0.5 := by
    rw [abs_le]
    constructor <;> norm_num <;> linarith
  have hnn : 0 ≤ |clamp (heat / 300) 0 1 - 0.5| := abs_nonneg _
  refine ⟨⟨h0, h1⟩, ⟨?_, ?_⟩, ⟨?_, ?_⟩⟩
  · norm_num at habs ⊢; linarith
  · linarith
  · linarith
  · linarith

end ColourLemmas

/-- C2. Colour range.  For every real heat value, the three channels
`(t, 1 - |t - 0.5| * 2, 1 - t)` with `t = clamp(heat / 300, 0, 1)` lie in
`[0, 1]`; consequently every colour written by the vertex loops of `4bed.js`,
`main.js` and `main4.js` has its three channels in `[0, 1]`, for every coil list
and every vertex. -/
theorem C2_colour_channels_in_unit_interval :
    (∀ heat : ℝ,
      (0 ≤ (heatColor heat).r ∧ (heatColor heat).r ≤ 1) ∧
      (0 ≤ (heatColor heat).g ∧ (heatColor heat).g ≤ 1) ∧
      (0 ≤ (heatColor heat).b ∧ (heatColor heat).b ≤ 1)) ∧
    (∀ (coils : List (Coil ℝ)) (x z : ℝ),
      (0 ≤ (Bed4.vertexColor Real.sqrt Real.exp coils x z).r ∧
        (Bed4.vertexColor Real.sqrt Real.exp coils x z).r ≤ 1) ∧
      (0 ≤ (Bed4.vertexColor Real.sqrt Real.exp coils x z).g ∧
        (Bed4.vertexColor Real.sqrt Real.exp coils x z).g ≤ 1) ∧
      (0 ≤ (Bed4.vertexColor Real.sqrt Real.exp coils x z).b ∧
        (Bed4.vertexColor Real.sqrt Real.exp coils x z).b ≤ 1)) ∧
    (∀ (coils : List (Coil ℝ)) (x z : ℝ),
      (0 ≤ (Main.vertexColor Real.sqrt Real.exp coils x z).r ∧
        (Main.vertexColor Real.sqrt Real.exp coils x z).r ≤ 1) ∧
      (0 ≤ (Main.vertexColor Real.sqrt Real.exp coils x z).g ∧
        (Main.vertexColor Real.sqrt Real.exp coils x z).g ≤ 1) ∧
      (0 ≤ (Main.vertexColor Real.sqrt Real.exp coils x z).b ∧
        (Main.vertexColor Real.sqrt Real.exp coils x z).b ≤ 1)) ∧
    (∀ (coils : List (Coil ℝ)) (x z : ℝ),
      (0 ≤ (Main4.vertexColor Real.sqrt Real.exp coils x z).r ∧
        (Main4.vertexColor Real.sqrt Real.exp coils x z).r ≤ 1) ∧
      (0 ≤ (Main4.vertexColor Real.sqrt Real.exp coils x z).g ∧
        (Main4.vertexColor Real.sqrt Real.exp coils x z).g ≤ 1) ∧
      (0 ≤ (Main4.vertexColor Real.sqrt Real.exp coils x z).b ∧
        (Main4.vertexColor Real.sqrt Real.exp coils x z).b ≤ 1)) :=
  ⟨heatColor_channels,
    fun _ _ _ => heatColor_channels _,
    fun _ _ _ => heatColor_channels _,
    fun _ _ _ => heatColor_channels _⟩

/-! ## Gaussian sum -/

section HeatLemmas

variable {α : Type} [LinearOrderedField α]

theorem foldl_add_eq_sum {β : Type} (g : β → α) (l : List β) (init : α) :
    l.foldl (fun acc x => acc + g x) init = init + (l.map g).sum := by
  induction l generalizing init with
  | nil => simp
  | cons x xs ih => simp [List.foldl_cons, ih, add_assoc]

theorem heatSum_eq_sum (expf : α → α) (spread : α) (coils : List (Coil α)) (r : α) :
    heatSum expf spread coils r =
      (coils.map fun c =>
        c.power * expf ((-((r - c.radius) * (r - c.radius))) / (spread * spread))).sum := by
  simp only [heatSum]
  rw [foldl_add_eq_sum (fun c : Coil α =>
    c.power * expf ((-((r - c.radius) * (r - c.radius))) / (spread * spread)))]
  simp

theorem heatSum_nil (expf : α → α) (spread r : α) : heatSum expf spread [] r = 0 := rfl

theorem heatSumBoost_nil (expf : α → α) (spread r : α) : heatSumBoost expf spread [] r = 0 :=
  rfl

theorem heatSum_single (expf : α → α) (spread R P : α) :
    heatSum expf spread [⟨R, P⟩] R = P * expf 0 := by
  simp [heatSum]

theorem heatSumBoost_single (expf : α → α) (spread R P : α) :
    heatSumBoost expf spread [⟨R, P⟩] R = 1.6 * P * expf 0 := by
  simp [heatSumBoost, List.enum, List.enumFrom]

theorem abs_half : |(1 / 2 : α)| = 1 / 2 := abs_of_pos (by norm_num)

theorem heatColor_zero : heatColor (0 : α) = ⟨0, 0, 1⟩ := by
  norm_num [heatColor, clamp, abs_half]

theorem heatColor_saturated (heat : α) (h : 300 ≤ heat) : heatColor heat = ⟨1, 0, 0⟩ := by
  have h1 : (1 : α) ≤ heat / 300 := by rw [le_div_iff₀ (by norm_num)]; linarith
  have ht : clamp (heat / 300) 0 1 = 1 := by
    simp only [clamp, min_eq_left h1]
    exact max_eq_right zero_le_one
  simp only [heatColor, ht]
  norm_num [abs_half]

theorem le_heatSum_of_mem (expf : α → α) (hexp : ∀ x, 0 ≤ expf x) (spread : α)
    (coils : List (Coil α)) (hnn : ∀ d ∈ coils, 0 ≤ d.power) (c : Coil α) (hc : c ∈ coils)
    (r : α) :
    c.power * expf ((-((r - c.radius) * (r - c.radius))) / (spread * spread)) ≤
      heatSum expf spread coils r := by
  rw [heatSum_eq_sum]
  induction coils with
  | nil => simp at hc
  | cons d ds ih =>
    have hd : 0 ≤ d.power * expf ((-((r - d.radius) * (r - d.radius))) / (spread * spread)) :=
      mul_nonneg (hnn d (List.mem_cons_self _ _)) (hexp _)
    have hds : ∀ e ∈ ds, 0 ≤ e.power := fun e he => hnn e (List.mem_cons_of_mem _ he)
    have hsum : 0 ≤ (ds.map fun e : Coil α =>
        e.power * expf ((-((r - e.radius) * (r - e.radius))) / (spread * spread))).sum :=
      List.sum_nonneg (by
        intro x hx
        obtain ⟨e, he, rfl⟩ := List.mem_map.1 hx
        exact mul_nonneg (hds e he) (hexp _))
    simp only [List.map_cons, List.sum_cons]
    rcases List.mem_cons.1 hc with rfl | hc'
    · linarith
    · have := ih hds hc'
      linarith

end HeatLemmas

/-- C3, as amended.  For a single source of radius `R` and power `P` and every
`spread > 0` (so that the divisor `spread * spread` is not zero), the heat at a
sample point of radial distance `R` is exactly `P` in the loop of `4bed.js` and
`main.js`, and exactly `1.6 * P` in the loop of `main4.js`, which boosts the
coil of index 0; the same holds with the spreads fixed in the scripts. -/
theorem C3_gaussian_peak (spread R P : ℝ) (hs : 0 < spread) :
    spread * spread ≠ 0 ∧
    heatSum Real.exp spread [⟨R, P⟩] R = P ∧
    heatSumBoost Real.exp spread [⟨R, P⟩] R = 1.6 * P ∧
    Bed4.heatAt Real.exp [⟨R, P⟩] R = P ∧
    Main.heatAt Real.exp [⟨R, P⟩] R = P ∧
    Main4.heatAt Real.exp [⟨R, P⟩] R = 1.6 * P := by
  refine ⟨mul_ne_zero hs.ne' hs.ne', ?_, ?_, ?_, ?_, ?_⟩
  · rw [heatSum_single, Real.exp_zero, mul_one]
  · rw [heatSumBoost_single, Real.exp_zero, mul_one]
  · rw [Bed4.heatAt, heatSum_single, Real.exp_zero, mul_one]
  · rw [Main.heatAt, heatSum_single, Real.exp_zero, mul_one]
  · rw [Main4.heatAt, heatSumBoost_single, Real.exp_zero, mul_one]

/-- Witness of C3: the inner coil of `4bed.js`, radius `2.5` and power `300`,
with spread `2.8`. -/
theorem C3_gaussian_peak_witness :
    (0 : ℝ) < 2.8 ∧ heatSum Real.exp 2.8 [⟨2.5, 300⟩] 2.5 = 300 ∧
      Main4.heatAt Real.exp [⟨2.5, 300⟩] 2.5 = 1.6 * 300 :=
  ⟨by norm_num, (C3_gaussian_peak 2.8 2.5 300 (by norm_num)).2.1,
    (C3_gaussian_peak 2.8 2.5 300 (by norm_num)).2.2.2.2.2⟩

/-- C3 as stated fails for `main4.js`: with the single source of radius `2.5` and
power `800` (the inner coil of that script) and its spread `2.2 > 0`, the heat at
radial distance `2.5` is `1280`, not `800`. -/
theorem C3_main4_boost_counterexample :
    (0 : ℝ) < Main4.spread ∧
    Main4.heatAt Real.exp [⟨2.5, 800⟩] 2.5 = 1280 ∧
    ¬ (Main4.heatAt Real.exp [⟨2.5, 800⟩] 2.5 = 800) := by
  have h : Main4.heatAt Real.exp [⟨2.5, 800⟩] 2.5 = 1280 := by
    rw [Main4.heatAt, heatSumBoost_single, Real.exp_zero]; norm_num
  refine ⟨by norm_num [Main4.spread], h, ?_⟩
  rw [h]; norm_num

/-- C7, as amended.  For every draw `u` in `[0, 1)` the delta `u * 40 - 20` lies
in `[-20, 20)`, and for every coil whose power is within the clamp range of the
script (`[50, 300]` in `4bed.js`, `[50, 250]` in `main.js`) one call of the
fluctuation changes the power by at most `20` in absolute value and leaves the
radius unchanged. -/
theorem C7_single_tick_change (u : ℝ) (c : Coil ℝ) (hu0 : 0 ≤ u) (hu1 : u < 1)
    (hlo : 50 ≤ c.power) :
    (-20 ≤ fluct u ∧ fluct u ≤ 20) ∧
    (c.power ≤ 300 → |(Bed4.fluctuate u c).power - c.power| ≤ 20) ∧
    (c.power ≤ 250 → |(Main.fluctuate u c).power - c.power| ≤ 20) ∧
    (Bed4.fluctuate u c).radius = c.radius ∧ (Main.fluctuate u c).radius = c.radius := by
  obtain ⟨h1, h2⟩ := fluct_range u hu0 hu1
  have habs : |fluct u| ≤ 20 := abs_le.2 ⟨h1, h2.le⟩
  exact ⟨⟨h1, h2.le⟩,
    fun hhi => (clamped_step_le 50 300 c.power (fluct u) hlo hhi).trans habs,
    fun hhi => (clamped_step_le 50 250 c.power (fluct u) hlo hhi).trans habs, rfl, rfl⟩

/-- Witness of C7: the draw `0.9` on a coil of power `200`. -/
theorem C7_single_tick_change_witness :
    (0 : ℝ) ≤ 0.9 ∧ (0.9 : ℝ) < 1 ∧
    (Bed4.fluctuate (0.9 : ℝ) ⟨2.5, 200⟩).power = 216 ∧
    |(Bed4.fluctuate (0.9 : ℝ) ⟨2.5, 200⟩).power - 200| ≤ 20 ∧
    |(Main.fluctuate (0.9 : ℝ) ⟨2.5, 200⟩).power - 200| ≤ 20 := by
  have h := C7_single_tick_change 0.9 ⟨2.5, 200⟩ (by norm_num) (by norm_num) (by norm_num)
  exact ⟨by norm_num, by norm_num, by norm_num [Bed4.fluctuate, fluct],
    h.2.1 (by norm_num), h.2.2.1 (by norm_num)⟩

/-- C7 as stated fails for a starting power outside the clamp range: with the
draw `u = 0.5` (delta `0`) a coil of power `0` is set to `50` by
`simulateRandomTemperatures` (`4bed.js`) and by `simulateRandomTemperature`
(`main.js`), a change of `50 > 20`. -/
theorem C7_out_of_range_counterexample :
    (0 : ℝ) ≤ 0.5 ∧ (0.5 : ℝ) < 1 ∧
    (Bed4.fluctuate (0.5 : ℝ) ⟨2.5, 0⟩).power = 50 ∧
    ¬ (|(Bed4.fluctuate (0.5 : ℝ) ⟨2.5, 0⟩).power - 0| ≤ 20) ∧
    ¬ (|(Main.fluctuate (0.5 : ℝ) ⟨2.5, 0⟩).power - 0| ≤ 20) := by
  have hb : (Bed4.fluctuate (0.5 : ℝ) ⟨2.5, 0⟩).power = 50 := by
    norm_num [Bed4.fluctuate, fluct]
  have hm : (Main.fluctuate (0.5 : ℝ) ⟨2.5, 0⟩).power = 50 := by
    norm_num [Main.fluctuate, fluct]
  refine ⟨by norm_num, by norm_num, hb, ?_, ?_⟩
  · rw [hb]; norm_num
  · rw [hm]; norm_num

/-- C8. Empty source list.  With an empty coil list, for every vertex (and
whatever `Math.sqrt` and `Math.exp` return) the summed heat is `0`, `t` is `0`
and the colour written is exactly `(0, 0, 1)`, in the loops of `4bed.js`,
`main.js` and `main4.js`; the whole colour attribute becomes blue.  The model is
a total function, and the divisors `300` and `spread * spread` are not zero. -/
theorem C8_empty_coils_full_blue (sqrtf expf : ℝ → ℝ) (x z : ℝ) :
    (Bed4.heatAt expf [] (sqrtf (x * x + z * z)) = 0 ∧
      clamp (Bed4.heatAt expf [] (sqrtf (x * x + z * z)) / 300) 0 1 = 0 ∧
      Bed4.vertexColor sqrtf expf [] x z = ⟨0, 0, 1⟩) ∧
    (Main.heatAt expf [] (sqrtf (x * x + z * z)) = 0 ∧
      clamp (Main.heatAt expf [] (sqrtf (x * x + z * z)) / 300) 0 1 = 0 ∧
      Main.vertexColor sqrtf expf [] x z = ⟨0, 0, 1⟩) ∧
    (Main4.heatAt expf [] (sqrtf (x * x + z * z)) = 0 ∧
      clamp (Main4.heatAt expf [] (sqrtf (x * x + z * z)) / 300) 0 1 = 0 ∧
      Main4.vertexColor sqrtf expf [] x z = ⟨0, 0, 1⟩) ∧
    (∀ (pos : List (ℝ × ℝ)) (col : List (Color ℝ)),
      Bed4.updateHeatMaps sqrtf expf [⟨[], pos, col⟩] =
        [⟨[], pos, pos.map fun _ => ⟨0, 0, 1⟩⟩]) ∧
    (∀ pos : List (ℝ × ℝ),
      Main.updateHeatMap sqrtf expf [] pos = pos.map fun _ => ⟨0, 0, 1⟩) ∧
    (∀ pos : List (ℝ × ℝ),
      Main4.updateHeatMap sqrtf expf [] pos = pos.map fun _ => ⟨0, 0, 1⟩) ∧
    ((300 : ℝ) ≠ 0 ∧ (Bed4.spread : ℝ) * Bed4.spread ≠ 0 ∧
      (Main.spread : ℝ) * Main.spread ≠ 0 ∧ (Main4.spread : ℝ) * Main4.spread ≠ 0) := by
  have hB : ∀ r : ℝ, Bed4.heatAt expf [] r = 0 := fun r => rfl
  have hM : ∀ r : ℝ, Main.heatAt expf [] r = 0 := fun r => rfl
  have hM4 : ∀ r : ℝ, Main4.heatAt expf [] r = 0 := fun r => rfl
  have ht : clamp ((0 : ℝ) / 300) 0 1 = 0 := by norm_num [clamp]
  have cB : ∀ x z : ℝ, Bed4.vertexColor sqrtf expf [] x z = ⟨0, 0, 1⟩ := fun x z => by
    simp only [Bed4.vertexColor, Bed4.colorAt, hB, heatColor_zero]
  have cM : ∀ x z : ℝ, Main.vertexColor sqrtf expf [] x z = ⟨0, 0, 1⟩ := fun x z => by
    simp only [Main.vertexColor, Main.colorAt, hM, heatColor_zero]
  have cM4 : ∀ x z : ℝ, Main4.vertexColor sqrtf expf [] x z = ⟨0, 0, 1⟩ := fun x z => by
    simp only [Main4.vertexColor, Main4.colorAt, hM4, heatColor_zero]
  refine ⟨⟨hB _, by rw [hB, ht], cB x z⟩, ⟨hM _, by rw [hM, ht], cM x z⟩,
    ⟨hM4 _, by rw [hM4, ht], cM4 x z⟩, ?_, ?_, ?_, ?_⟩
  · intro pos col
    simp only [Bed4.updateHeatMaps, List.map_cons, List.map_nil, cB]
  · intro pos
    simp only [Main.updateHeatMap, cM]
  · intro pos
    simp only [Main4.updateHeatMap, cM4]
  · norm_num [Bed4.spread, Main.spread, Main4.spread]

/-- C10. Saturation at a full-power ring.  In the loop of `4bed.js` and of
`main.js` (spread `2.8`, normalization `300`), for every coil list whose powers
are all non-negative and every coil `c` of the list with power at least `300`,
the sample point at radial distance `c.radius` has heat at least `300`, `t = 1`
and colour exactly `(1, 0, 0)`. -/
theorem C10_saturation (coils : List (Coil ℝ)) (c : Coil ℝ)
    (hnn : ∀ d ∈ coils, 0 ≤ d.power) (hc : c ∈ coils) (hp : 300 ≤ c.power) :
    (300 ≤ Bed4.heatAt Real.exp coils c.radius ∧
      clamp (Bed4.heatAt Real.exp coils c.radius / 300) 0 1 = 1 ∧
      Bed4.colorAt Real.exp coils c.radius = ⟨1, 0, 0⟩) ∧
    (300 ≤ Main.heatAt Real.exp coils c.radius ∧
      clamp (Main.heatAt Real.exp coils c.radius / 300) 0 1 = 1 ∧
      Main.colorAt Real.exp coils c.radius = ⟨1, 0, 0⟩) := by
  have key : ∀ spread : ℝ, 300 ≤ heatSum Real.exp spread coils c.radius := by
    intro spread
    have h := le_heatSum_of_mem Real.exp (fun x => (Real.exp_pos x).le) spread coils hnn c hc
      c.radius
    simp only [sub_self, mul_zero, neg_zero, zero_div, Real.exp_zero, mul_one] at h
    linarith
  have ht : ∀ heat : ℝ, 300 ≤ heat → clamp (heat / 300) 0 1 = 1 := by
    intro heat hh
    have h1 : (1 : ℝ) ≤ heat / 300 := by rw [le_div_iff₀ (by norm_num)]; linarith
    simp only [clamp, min_eq_left h1]
    exact max_eq_right zero_le_one
  exact ⟨⟨key _, ht _ (key _), heatColor_saturated _ (key _)⟩,
    ⟨key _, ht _ (key _), heatColor_saturated _ (key _)⟩⟩

/-- Witness of C10: the four sources of `4bed.js` at radial distance `2.5`, the
radius of the source of power `300`. -/
theorem C10_saturation_witness :
    Bed4.colorAt Real.exp (Bed4.coils : List (Coil ℝ)) 2.5 = ⟨1, 0, 0⟩ ∧
    clamp (Bed4.heatAt Real.exp (Bed4.coils : List (Coil ℝ)) 2.5 / 300) 0 1 = 1 := by
  have h := C10_saturation (Bed4.coils : List (Coil ℝ)) ⟨2.5, 300⟩
    (fun d hd => le_trans (by norm_num) (bed4_coils_within d hd).1)
    (by simp [Bed4.coils]) (by norm_num)
  exact ⟨h.1.2.2, h.1.2.1⟩

/-! ## Stepped rotation -/

section RotationLemmas

variable {α : Type} [LinearOrderedField α]

theorem rotateTowardsTarget_frame (cfg : RotationSettings α) (s : RotationState α) :
    (rotateTowardsTarget cfg s).currentStep = s.currentStep ∧
    (rotateTowardsTarget cfg s).targetRotationY = s.targetRotationY ∧
    (rotateTowardsTarget cfg s).lastStepTime = s.lastStepTime := by
  unfold rotateTowardsTarget
  simp only []
  split_ifs <;> exact ⟨rfl, rfl, rfl⟩

theorem startStep_of_ge (cfg : RotationSettings α) (now : α) (s : RotationState α)
    (h : now - s.lastStepTime ≥ cfg.waitTime) :
    startStep cfg now s =
      { s with
        targetRotationY := s.targetRotationY + cfg.stepAngle
        currentStep := (s.currentStep + 1) % cfg.totalSteps
        lastStepTime := now } := by
  simp only [startStep, if_pos h]

theorem startStep_of_lt (cfg : RotationSettings α) (now : α) (s : RotationState α)
    (h : now - s.lastStepTime < cfg.waitTime) : startStep cfg now s = s := by
  simp only [startStep, if_neg (not_le.2 h)]

theorem animateRotationAll_append (cfg : RotationSettings α) (times : List α) (now : α)
    (s : RotationState α) :
    animateRotationAll cfg (times ++ [now]) s =
      animateRotation cfg now (animateRotationAll cfg times s) := by
  simp [animateRotationAll, List.foldl_append]

theorem cadenceTimes_succ (w last : α) (n : ℕ) :
    cadenceTimes w last (n + 1) = cadenceTimes w last n ++ [last + ((n : α) + 1) * w] := by
  simp [cadenceTimes, List.range_succ]

/-- On a tick exactly `waitTime` after the last step, `animate` performs a step. -/
theorem animateRotation_on_cadence (cfg : RotationSettings α) (s : RotationState α) :
    (animateRotation cfg (s.lastStepTime + cfg.waitTime) s).currentStep =
        (s.currentStep + 1) % cfg.totalSteps ∧
    (animateRotation cfg (s.lastStepTime + cfg.waitTime) s).targetRotationY =
        s.targetRotationY + cfg.stepAngle ∧
    (animateRotation cfg (s.lastStepTime + cfg.waitTime) s).lastStepTime =
        s.lastStepTime + cfg.waitTime := by
  have h : s.lastStepTime + cfg.waitTime - s.lastStepTime ≥ cfg.waitTime := by
    rw [add_sub_cancel_left]
  obtain ⟨h1, h2, h3⟩ := rotateTowardsTarget_frame cfg
    (startStep cfg (s.lastStepTime + cfg.waitTime) s)
  simp only [animateRotation, h1, h2, h3]
  rw [startStep_of_ge cfg _ s h]
  exact ⟨rfl, rfl, rfl⟩

theorem cadence_closed_form (cfg : RotationSettings α) (s : RotationState α) (n : ℕ) :
    (animateRotationAll cfg (cadenceTimes cfg.waitTime s.lastStepTime n) s).lastStepTime =
        s.lastStepTime + (n : α) * cfg.waitTime ∧
    (animateRotationAll cfg (cadenceTimes cfg.waitTime s.lastStepTime n) s).targetRotationY =
        s.targetRotationY + (n : α) * cfg.stepAngle ∧
    (animateRotationAll cfg (cadenceTimes cfg.waitTime s.lastStepTime (n + 1)) s).currentStep =
        (s.currentStep + (n + 1)) % cfg.totalSteps := by
  induction n with
  | zero =>
    refine ⟨by simp [cadenceTimes, animateRotationAll],
      by simp [cadenceTimes, animateRotationAll], ?_⟩
    have h := (animateRotation_on_cadence cfg s).1
    have e0 : animateRotationAll cfg (cadenceTimes cfg.waitTime s.lastStepTime 0) s = s := by
      simp [cadenceTimes, animateRotationAll]
    rw [cadenceTimes_succ, animateRotationAll_append, e0]
    simpa using h
  | succ n ih =>
    obtain ⟨ih1, ih2, ih3⟩ := ih
    have e1 : s.lastStepTime + ((n : α) + 1) * cfg.waitTime =
        (animateRotationAll cfg (cadenceTimes cfg.waitTime s.lastStepTime n) s).lastStepTime
          + cfg.waitTime := by rw [ih1]; ring
    have e2 : s.lastStepTime + (((n + 1 : ℕ) : α) + 1) * cfg.waitTime =
        (animateRotationAll cfg (cadenceTimes cfg.waitTime s.lastStepTime (n + 1)) s).lastStepTime
          + cfg.waitTime := by
      rw [cadenceTimes_succ, animateRotationAll_append, e1,
        (animateRotation_on_cadence cfg _).2.2, ih1]
      push_cast; ring
    refine ⟨?_, ?_, ?_⟩
    · rw [cadenceTimes_succ, animateRotationAll_append, e1,
        (animateRotation_on_cadence cfg _).2.2, ih1]
      push_cast; ring
    · rw [cadenceTimes_succ, animateRotationAll_append, e1,
        (animateRotation_on_cadence cfg _).2.1, ih2]
      push_cast; ring
    · rw [cadenceTimes_succ _ _ (n + 1), animateRotationAll_append, e2,
        (animateRotation_on_cadence cfg _).1, ih3, Nat.add_mod, Nat.mod_mod, ← Nat.add_mod]
      rfl

theorem rotate_of_nonneg (cfg : RotationSettings α) (s : RotationState α)
    (hv : 0 ≤ cfg.rotationSpeed) (hd : 0 ≤ s.targetRotationY - s.rotationY) :
    0 ≤ s.targetRotationY - (rotateTowardsTarget cfg s).rotationY ∧
    s.targetRotationY - (rotateTowardsTarget cfg s).rotationY ≤
      s.targetRotationY - s.rotationY ∧
    s.targetRotationY - (rotateTowardsTarget cfg s).rotationY ≤
      max 0 (s.targetRotationY - s.rotationY - cfg.rotationSpeed) := by
  unfold rotateTowardsTarget
  simp only []
  rw [abs_of_nonneg hd]
  split_ifs with h
  · have hpos : 0 < s.targetRotationY - s.rotationY := lt_trans (by norm_num) h
    simp only [mathSign, if_pos hpos, one_mul]
    rcases le_total (s.targetRotationY - s.rotationY) cfg.rotationSpeed with hle | hle
    · rw [min_eq_left hle]
      exact ⟨by linarith, by linarith, le_max_of_le_left (by linarith)⟩
    · rw [min_eq_right hle]
      exact ⟨by linarith, by linarith, le_max_of_le_right (by linarith)⟩
  · simp only [sub_self]
    exact ⟨le_refl _, hd, le_max_left _ _⟩

theorem rotate_of_nonpos (cfg : RotationSettings α) (s : RotationState α)
    (hv : 0 ≤ cfg.rotationSpeed) (hd : s.targetRotationY - s.rotationY ≤ 0) :
    s.targetRotationY - (rotateTowardsTarget cfg s).rotationY ≤ 0 ∧
    s.targetRotationY - s.rotationY ≤
      s.targetRotationY - (rotateTowardsTarget cfg s).rotationY := by
  unfold rotateTowardsTarget
  simp only []
  rw [abs_of_nonpos hd]
  split_ifs with h
  · have hneg : s.targetRotationY - s.rotationY < 0 := by
      have : (0 : α) < 0.001 := by norm_num
      linarith
    simp only [mathSign, if_neg (not_lt.2 hd), if_pos hneg]
    rcases le_total (-(s.targetRotationY - s.rotationY)) cfg.rotationSpeed with hle | hle
    · rw [min_eq_left hle]
      exact ⟨by linarith, by linarith⟩
    · rw [min_eq_right hle]
      exact ⟨by linarith, by linarith⟩
  · simp only [sub_self]
    exact ⟨le_refl _, hd⟩

theorem rotate_distance_le (cfg : RotationSettings α) (s : RotationState α)
    (hv : 0 ≤ cfg.rotationSpeed) :
    |s.targetRotationY - (rotateTowardsTarget cfg s).rotationY| ≤
      |s.targetRotationY - s.rotationY| := by
  rcases le_total 0 (s.targetRotationY - s.rotationY) with hd | hd
  · obtain ⟨h1, h2, _⟩ := rotate_of_nonneg cfg s hv hd
    rw [abs_of_nonneg h1, abs_of_nonneg hd]
    exact h2
  · obtain ⟨h1, h2⟩ := rotate_of_nonpos cfg s hv hd
    rw [abs_of_nonpos h1, abs_of_nonpos hd]
    linarith

theorem rotate_iterate_frame (cfg : RotationSettings α) (k : ℕ) (s : RotationState α) :
    ((rotateTowardsTarget cfg)^[k] s).currentStep = s.currentStep ∧
    ((rotateTowardsTarget cfg)^[k] s).targetRotationY = s.targetRotationY ∧
    ((rotateTowardsTarget cfg)^[k] s).lastStepTime = s.lastStepTime := by
  induction k generalizing s with
  | zero => exact ⟨rfl, rfl, rfl⟩
  | succ k ih =>
    obtain ⟨h1, h2, h3⟩ := ih (rotateTowardsTarget cfg s)
    obtain ⟨f1, f2, f3⟩ := rotateTowardsTarget_frame cfg s
    rw [Function.iterate_succ_apply, h1, h2, h3]
    exact ⟨f1, f2, f3⟩

theorem rotate_iterate_arrives (cfg : RotationSettings α) (hv : 0 ≤ cfg.rotationSpeed) (k : ℕ)
    (s : RotationState α) (h0 : 0 ≤ s.targetRotationY - s.rotationY)
    (hk : s.targetRotationY - s.rotationY ≤ (k : α) * cfg.rotationSpeed) :
    ((rotateTowardsTarget cfg)^[k] s).rotationY = s.targetRotationY := by
  induction k generalizing s with
  | zero =>
    simp only [Nat.cast_zero, zero_mul] at hk
    simp only [Function.iterate_zero, id_eq]
    linarith
  | succ k ih =>
    obtain ⟨h1, _, h3⟩ := rotate_of_nonneg cfg s hv h0
    obtain ⟨_, f2, _⟩ := rotateTowardsTarget_frame cfg s
    rw [Function.iterate_succ_apply, ← f2]
    apply ih
    · rw [f2]; exact h1
    · rw [f2]
      refine h3.trans (max_le (mul_nonneg (Nat.cast_nonneg k) hv) ?_)
      push_cast at hk
      linarith

theorem animateRotationAll_no_step (cfg : RotationSettings α) (times : List α)
    (s : RotationState α) (h : ∀ t ∈ times, t - s.lastStepTime < cfg.waitTime) :
    animateRotationAll cfg times s = (rotateTowardsTarget cfg)^[times.length] s := by
  induction times generalizing s with
  | nil => rfl
  | cons t ts ih =>
    have ht : animateRotation cfg t s = rotateTowardsTarget cfg s := by
      rw [animateRotation, startStep_of_lt cfg t s (h t (List.mem_cons_self _ _))]
    have hts : ∀ u ∈ ts, u - (rotateTowardsTarget cfg s).lastStepTime < cfg.waitTime := by
      intro u hu
      rw [(rotateTowardsTarget_frame cfg s).2.2]
      exact h u (List.mem_cons_of_mem _ hu)
    have hcons : animateRotationAll cfg (t :: ts) s =
        animateRotationAll cfg ts (animateRotation cfg t s) := rfl
    rw [hcons, ht, ih _ hts, List.length_cons, Function.iterate_succ_apply]

/-- The rotation written by one call of `animate` of `4bed.js` is that of
`animateRotation` with the settings of the script, whatever the blocks and the
random draws are. -/
theorem bed4_animate_rotation (pi : α) (sqrtf expf : α → α) (rand : ℕ → α) (now : α)
    (w : Bed4.Scene α) :
    (Bed4.animate pi sqrtf expf rand now w).rotation =
      animateRotation (Bed4.settings pi) now w.rotation := rfl

end RotationLemmas

/-- C4. Step cadence.  For every rotation settings and every prior state, along
the ticks at times `lastStepTime + waitTime, lastStepTime + 2 * waitTime, ...`
every tick performs a step: on tick number `n + 1`, `currentStep` becomes
`(currentStep + 1) mod totalSteps`, `targetRotationY` increases by exactly
`stepAngle` and `lastStepTime` becomes the timestamp of the tick.  In closed
form, after `n + 1` ticks `lastStepTime = lastStepTime₀ + (n + 1) * waitTime`,
`targetRotationY = targetRotationY₀ + (n + 1) * stepAngle` and
`currentStep = (currentStep₀ + n + 1) mod totalSteps`. -/
theorem C4_step_cadence (cfg : RotationSettings ℝ) (s : RotationState ℝ) (n : ℕ) :
    (animateRotation cfg (s.lastStepTime + ((n : ℝ) + 1) * cfg.waitTime)
        (animateRotationAll cfg (cadenceTimes cfg.waitTime s.lastStepTime n) s)).currentStep =
      ((animateRotationAll cfg (cadenceTimes cfg.waitTime s.lastStepTime n) s).currentStep + 1)
        % cfg.totalSteps ∧
    (animateRotation cfg (s.lastStepTime + ((n : ℝ) + 1) * cfg.waitTime)
        (animateRotationAll cfg (cadenceTimes cfg.waitTime s.lastStepTime n) s)).targetRotationY =
      (animateRotationAll cfg (cadenceTimes cfg.waitTime s.lastStepTime n) s).targetRotationY
        + cfg.stepAngle ∧
    (animateRotation cfg (s.lastStepTime + ((n : ℝ) + 1) * cfg.waitTime)
        (animateRotationAll cfg (cadenceTimes cfg.waitTime s.lastStepTime n) s)).lastStepTime =
      s.lastStepTime + ((n : ℝ) + 1) * cfg.waitTime ∧
    animateRotationAll cfg (cadenceTimes cfg.waitTime s.lastStepTime (n + 1)) s =
      animateRotation cfg (s.lastStepTime + ((n : ℝ) + 1) * cfg.waitTime)
        (animateRotationAll cfg (cadenceTimes cfg.waitTime s.lastStepTime n) s) ∧
    (animateRotationAll cfg (cadenceTimes cfg.waitTime s.lastStepTime (n + 1)) s).lastStepTime =
      s.lastStepTime + ((n : ℝ) + 1) * cfg.waitTime ∧
    (animateRotationAll cfg (cadenceTimes cfg.waitTime s.lastStepTime (n + 1)) s).targetRotationY =
      s.targetRotationY + ((n : ℝ) + 1) * cfg.stepAngle ∧
    (animateRotationAll cfg (cadenceTimes cfg.waitTime s.lastStepTime (n + 1)) s).currentStep =
      (s.currentStep + (n + 1)) % cfg.totalSteps := by
  obtain ⟨h1, _, _⟩ := cadence_closed_form cfg s n
  obtain ⟨k1, k2, _⟩ := cadence_closed_form cfg s (n + 1)
  have e : s.lastStepTime + ((n : ℝ) + 1) * cfg.waitTime =
      (animateRotationAll cfg (cadenceTimes cfg.waitTime s.lastStepTime n) s).lastStepTime
        + cfg.waitTime := by rw [h1]; ring
  obtain ⟨a1, a2, a3⟩ := animateRotation_on_cadence cfg
    (animateRotationAll cfg (cadenceTimes cfg.waitTime s.lastStepTime n) s)
  refine ⟨?_, ?_, ?_, ?_, ?_, ?_, (cadence_closed_form cfg s n).2.2⟩
  · rw [e]; exact a1
  · rw [e]; exact a2
  · rw [e, a3]
  · rw [cadenceTimes_succ, animateRotationAll_append]
  · rw [k1]; push_cast; ring
  · rw [k2]; push_cast; ring

/-- C5. Bounded arrival.  For rotation settings with `stepAngle > 0` and
`rotationSpeed > 0`, starting from a state whose current rotation equals its
target, let a step be applied by the tick at time `now` and let no further step
occur on the later ticks.  Then after any number of ticks that is at least
`ceil(stepAngle / rotationSpeed)`, counting the tick that applied the step, the
current rotation equals the target `targetRotationY + stepAngle` exactly: it
arrives within that many ticks and stays there on every later tick. -/
theorem C5_bounded_arrival (cfg : RotationSettings ℝ) (s : RotationState ℝ) (now : ℝ)
    (later : List ℝ) (hangle : 0 < cfg.stepAngle) (hspeed : 0 < cfg.rotationSpeed)
    (hcur : s.rotationY = s.targetRotationY)
    (hstep : now - s.lastStepTime ≥ cfg.waitTime)
    (hnostep : ∀ t ∈ later, t - now < cfg.waitTime)
    (hticks : ⌈cfg.stepAngle / cfg.rotationSpeed⌉₊ ≤ later.length + 1) :
    (animateRotationAll cfg (now :: later) s).targetRotationY =
        s.targetRotationY + cfg.stepAngle ∧
    (animateRotationAll cfg (now :: later) s).rotationY =
        (animateRotationAll cfg (now :: later) s).targetRotationY := by
  have hcons : animateRotationAll cfg (now :: later) s =
      animateRotationAll cfg later (animateRotation cfg now s) := rfl
  have hlast : (animateRotation cfg now s).lastStepTime = now := by
    rw [animateRotation, (rotateTowardsTarget_frame cfg _).2.2, startStep_of_ge cfg now s hstep]
  have hrun : animateRotationAll cfg later (animateRotation cfg now s) =
      (rotateTowardsTarget cfg)^[later.length + 1] (startStep cfg now s) := by
    rw [animateRotationAll_no_step cfg later _ (by rw [hlast]; exact hnostep),
      Function.iterate_succ_apply]
    rfl
  have htarget : (startStep cfg now s).targetRotationY = s.targetRotationY + cfg.stepAngle := by
    rw [startStep_of_ge cfg now s hstep]
  have hrot : (startStep cfg now s).rotationY = s.targetRotationY := by
    rw [startStep_of_ge cfg now s hstep]; exact hcur
  have hbound : cfg.stepAngle ≤ ((later.length + 1 : ℕ) : ℝ) * cfg.rotationSpeed := by
    have h1 : cfg.stepAngle / cfg.rotationSpeed ≤ ((later.length + 1 : ℕ) : ℝ) :=
      (Nat.le_ceil _).trans (Nat.cast_le.2 hticks)
    exact (div_le_iff₀ hspeed).1 h1
  have harrive := rotate_iterate_arrives cfg hspeed.le (later.length + 1) (startStep cfg now s)
    (by rw [htarget, hrot]; linarith) (by rw [htarget, hrot]; linarith)
  rw [hcons, hrun, (rotate_iterate_frame cfg _ _).2.1, harrive, htarget]
  exact ⟨rfl, rfl⟩

/-- Witness of C5: the settings of `4bed.js`, where
`ceil(stepAngle / rotationSpeed) = ceil(20 * π) = 63`: from rest at angle `0`, a
step applied at time `5000` followed by `62` ticks at time `5001` ends with the
current rotation equal to the target `degToRad(72)`. -/
theorem C5_bounded_arrival_witness :
    ⌈(Bed4.settings Real.pi).stepAngle / (Bed4.settings Real.pi).rotationSpeed⌉₊ ≤ 63 ∧
    (animateRotationAll (Bed4.settings Real.pi) (5000 :: List.replicate 62 5001)
        ⟨0, 0, 0, 0⟩).targetRotationY = 0 + degToRad Real.pi 72 ∧
    (animateRotationAll (Bed4.settings Real.pi) (5000 :: List.replicate 62 5001)
        ⟨0, 0, 0, 0⟩).rotationY =
      (animateRotationAll (Bed4.settings Real.pi) (5000 :: List.replicate 62 5001)
        ⟨0, 0, 0, 0⟩).targetRotationY := by
  have hceil : ⌈(Bed4.settings Real.pi).stepAngle /
      (Bed4.settings Real.pi).rotationSpeed⌉₊ ≤ 63 := by
    rw [Nat.ceil_le]
    simp only [Bed4.settings, degToRad]
    have := Real.pi_lt_d2
    norm_num
    linarith
  have hpos : 0 < (Bed4.settings Real.pi).stepAngle := by
    simp only [Bed4.settings, degToRad]
    have := Real.pi_pos
    positivity
  exact ⟨hceil,
    C5_bounded_arrival (Bed4.settings Real.pi) ⟨0, 0, 0, 0⟩ 5000 (List.replicate 62 5001)
      hpos (by norm_num [Bed4.settings]) rfl (by norm_num [Bed4.settings])
      (by
        intro t ht
        rw [List.eq_of_mem_replicate ht]
        norm_num [Bed4.settings])
      (by rw [List.length_replicate]; exact hceil)⟩

/-- C6. No overshoot.  With `rotationSpeed ≥ 0` (it is `0.02` in `4bed.js`), one
tick of `animate` on which no step starts leaves the target unchanged and never
moves the current rotation past it: `current ≤ target` is preserved,
`current ≥ target` is preserved, and the distance `|target - current|` after the
tick is at most the distance before.  Hence along any run of ticks without
stepping the distance after one more tick is at most the distance before it. -/
theorem C6_no_overshoot (cfg : RotationSettings ℝ) (s : RotationState ℝ) (now : ℝ)
    (hspeed : 0 ≤ cfg.rotationSpeed) (hnostep : now - s.lastStepTime < cfg.waitTime) :
    (animateRotation cfg now s).targetRotationY = s.targetRotationY ∧
    (s.rotationY ≤ s.targetRotationY →
      (animateRotation cfg now s).rotationY ≤ s.targetRotationY) ∧
    (s.rotationY ≥ s.targetRotationY →
      (animateRotation cfg now s).rotationY ≥ s.targetRotationY) ∧
    |s.targetRotationY - (animateRotation cfg now s).rotationY| ≤
      |s.targetRotationY - s.rotationY| ∧
    (∀ (times : List ℝ) (next : ℝ),
      (∀ t ∈ times, t - s.lastStepTime < cfg.waitTime) →
      next - s.lastStepTime < cfg.waitTime →
      (animateRotationAll cfg (times ++ [next]) s).targetRotationY = s.targetRotationY ∧
      |s.targetRotationY - (animateRotationAll cfg (times ++ [next]) s).rotationY| ≤
        |s.targetRotationY - (animateRotationAll cfg times s).rotationY|) := by
  have ht : animateRotation cfg now s = rotateTowardsTarget cfg s := by
    rw [animateRotation, startStep_of_lt cfg now s hnostep]
  refine ⟨?_, ?_, ?_, ?_, ?_⟩
  · rw [ht, (rotateTowardsTarget_frame cfg s).2.1]
  · intro h
    have := (rotate_of_nonneg cfg s hspeed (by linarith)).1
    rw [ht]; linarith
  · intro h
    have := (rotate_of_nonpos cfg s hspeed (by linarith)).1
    rw [ht]; linarith
  · rw [ht]; exact rotate_distance_le cfg s hspeed
  · intro times next htimes hnext
    obtain ⟨_, f2, f3⟩ := rotate_iterate_frame cfg times.length s
    have hrun := animateRotationAll_no_step cfg times s htimes
    have hstepless : next - (animateRotationAll cfg times s).lastStepTime < cfg.waitTime := by
      rw [hrun, f3]; exact hnext
    rw [animateRotationAll_append, animateRotation, startStep_of_lt cfg next _ hstepless,
      (rotateTowardsTarget_frame cfg _).2.1]
    have hT : (animateRotationAll cfg times s).targetRotationY = s.targetRotationY := by
      rw [hrun, f2]
    refine ⟨hT, ?_⟩
    have := rotate_distance_le cfg (animateRotationAll cfg times s) hspeed
    rw [hT] at this
    exact this

/-- Witness of C6: the settings of `4bed.js`, current rotation `0`, target `1`,
last step at time `0`, tick at time `16`. -/
theorem C6_no_overshoot_witness :
    (0 : ℝ) ≤ (Bed4.settings Real.pi).rotationSpeed ∧
    (16 : ℝ) - 0 < (Bed4.settings Real.pi).waitTime ∧
    (animateRotation (Bed4.settings Real.pi) 16 ⟨0, 1, 0, 0⟩).rotationY ≤ 1 ∧
    |1 - (animateRotation (Bed4.settings Real.pi) 16 ⟨0, 1, 0, 0⟩).rotationY| ≤ |(1 : ℝ) - 0| := by
  have h := C6_no_overshoot (Bed4.settings Real.pi) ⟨0, 1, 0, 0⟩ 16
    (by norm_num [Bed4.settings]) (by norm_num [Bed4.settings])
  exact ⟨by norm_num [Bed4.settings], by norm_num [Bed4.settings],
    h.2.1 (by norm_num), h.2.2.2.1⟩

/-! ## The centre of a block of `4bed.js` -/

section CentreLemmas

theorem bed4_centre_heat :
    Bed4.heatAt Real.exp (Bed4.coils : List (Coil ℝ)) 0 =
      300 * Real.exp (-(625 / 784)) + (180 * Real.exp (-(100 / 49)) +
        (150 * Real.exp (-(3025 / 784)) + 120 * Real.exp (-(4225 / 784)))) := by
  rw [Bed4.heatAt, heatSum_eq_sum]
  simp only [Bed4.coils, Bed4.spread, List.map_cons, List.map_nil, List.sum_cons, List.sum_nil,
    add_zero]
  norm_num

theorem exp_neg_le_of_le_exp (x c : ℝ) (hc : 0 < c) (h : 1 / c ≤ Real.exp x) :
    Real.exp (-x) ≤ c := by
  rw [Real.exp_neg]
  exact inv_le_of_inv_le₀ hc (by simpa using h)

theorem bed4_centre_heat_bounds :
    154 ≤ Bed4.heatAt Real.exp (Bed4.coils : List (Coil ℝ)) 0 ∧
    Bed4.heatAt Real.exp (Bed4.coils : List (Coil ℝ)) 0 ≤ 168 := by
  have l1 : (0.446 : ℝ) ≤ Real.exp (-(625 / 784)) :=
    le_trans (by norm_num) (@Real.one_sub_div_pow_le_exp_neg 40 (625 / 784) (by norm_num))
  have l2 : (0.116 : ℝ) ≤ Real.exp (-(100 / 49)) :=
    le_trans (by norm_num) (@Real.one_sub_div_pow_le_exp_neg 30 (100 / 49) (by norm_num))
  have l3 : (0 : ℝ) ≤ Real.exp (-(3025 / 784)) := (Real.exp_pos _).le
  have l4 : (0 : ℝ) ≤ Real.exp (-(4225 / 784)) := (Real.exp_pos _).le
  have u1 : Real.exp (-(625 / 784)) ≤ (0.455 : ℝ) :=
    exp_neg_le_of_le_exp _ _ (by norm_num)
      (le_trans (by norm_num [Finset.sum_range_succ, Nat.factorial])
        (Real.sum_le_exp_of_nonneg (show (0 : ℝ) ≤ 625 / 784 by norm_num) 4))
  have u2 : Real.exp (-(100 / 49)) ≤ (0.138 : ℝ) :=
    exp_neg_le_of_le_exp _ _ (by norm_num)
      (le_trans (by norm_num [Finset.sum_range_succ, Nat.factorial])
        (Real.sum_le_exp_of_nonneg (show (0 : ℝ) ≤ 100 / 49 by norm_num) 6))
  have u3 : Real.exp (-(3025 / 784)) ≤ (0.033 : ℝ) :=
    exp_neg_le_of_le_exp _ _ (by norm_num)
      (le_trans (by norm_num [Finset.sum_range_succ, Nat.factorial])
        (Real.sum_le_exp_of_nonneg (show (0 : ℝ) ≤ 3025 / 784 by norm_num) 5))
  have u4 : Real.exp (-(4225 / 784)) ≤ (0.013 : ℝ) :=
    exp_neg_le_of_le_exp _ _ (by norm_num)
      (le_trans (by norm_num [Finset.sum_range_succ, Nat.factorial])
        (Real.sum_le_exp_of_nonneg (show (0 : ℝ) ≤ 4225 / 784 by norm_num) 5))
  rw [bed4_centre_heat]
  constructor <;> linarith

theorem bed4_centre_t_bounds :
    0.51 ≤ clamp (Bed4.heatAt Real.exp (Bed4.coils : List (Coil ℝ)) 0 / 300) 0 1 ∧
    clamp (Bed4.heatAt Real.exp (Bed4.coils : List (Coil ℝ)) 0 / 300) 0 1 ≤ 0.56 := by
  obtain ⟨hl, hu⟩ := bed4_centre_heat_bounds
  have h1 : Bed4.heatAt Real.exp (Bed4.coils : List (Coil ℝ)) 0 / 300 ≤ 0.56 := by
    rw [div_le_iff₀ (by norm_num)]; linarith
  have h2 : (0.51 : ℝ) ≤ Bed4.heatAt Real.exp (Bed4.coils : List (Coil ℝ)) 0 / 300 := by
    rw [le_div_iff₀ (by norm_num)]; linarith
  have h3 : Bed4.heatAt Real.exp (Bed4.coils : List (Coil ℝ)) 0 / 300 ≤ 1 := by linarith
  have h4 : (0 : ℝ) ≤ Bed4.heatAt Real.exp (Bed4.coils : List (Coil ℝ)) 0 / 300 := by linarith
  simp only [clamp, min_eq_right h3, max_eq_right h4]
  exact ⟨h2, h1⟩

theorem bed4_centre_colour_bounds :
    (0.51 ≤ (Bed4.colorAt Real.exp (Bed4.coils : List (Coil ℝ)) 0).r ∧
      (Bed4.colorAt Real.exp (Bed4.coils : List (Coil ℝ)) 0).r ≤ 0.56) ∧
    (0.88 ≤ (Bed4.colorAt Real.exp (Bed4.coils : List (Coil ℝ)) 0).g ∧
      (Bed4.colorAt Real.exp (Bed4.coils : List (Coil ℝ)) 0).g ≤ 0.98) ∧
    (0.44 ≤ (Bed4.colorAt Real.exp (Bed4.coils : List (Coil ℝ)) 0).b ∧
      (Bed4.colorAt Real.exp (Bed4.coils : List (Coil ℝ)) 0).b ≤ 0.49) := by
  obtain ⟨hl, hu⟩ := bed4_centre_t_bounds
  simp only [Bed4.colorAt, heatColor]
  have habs : |clamp (Bed4.heatAt Real.exp (Bed4.coils : List (Coil ℝ)) 0 / 300) 0 1 - 0.5| =
      clamp (Bed4.heatAt Real.exp (Bed4.coils : List (Coil ℝ)) 0 / 300) 0 1 - 0.5 :=
    abs_of_nonneg (by linarith)
  rw [habs]
  refine ⟨⟨hl, hu⟩, ⟨?_, ?_⟩, ⟨?_, ?_⟩⟩ <;> norm_num at hl hu ⊢ <;> linarith

end CentreLemmas

/-- C9, as amended.  With the four sources of `4bed.js`, spread `2.8` and
normalization `300`, the sample point at radial distance `0` (the vertex
`(0, 0)`) has heat between `154` and `168` (about `162`), so `t` lies between
`0.51` and `0.56` and the colour written is about `(0.54, 0.92, 0.46)`: red in
`[0.51, 0.56]`, green in `[0.88, 0.98]`, blue in `[0.44, 0.49]`. -/
theorem C9_centre_colour :
    (154 ≤ Bed4.heatAt Real.exp (Bed4.coils : List (Coil ℝ)) 0 ∧
      Bed4.heatAt Real.exp (Bed4.coils : List (Coil ℝ)) 0 ≤ 168) ∧
    (0.51 ≤ clamp (Bed4.heatAt Real.exp (Bed4.coils : List (Coil ℝ)) 0 / 300) 0 1 ∧
      clamp (Bed4.heatAt Real.exp (Bed4.coils : List (Coil ℝ)) 0 / 300) 0 1 ≤ 0.56) ∧
    Bed4.vertexColor Real.sqrt Real.exp (Bed4.coils : List (Coil ℝ)) 0 0 =
      Bed4.colorAt Real.exp Bed4.coils 0 ∧
    (0.51 ≤ (Bed4.colorAt Real.exp (Bed4.coils : List (Coil ℝ)) 0).r ∧
      (Bed4.colorAt Real.exp (Bed4.coils : List (Coil ℝ)) 0).r ≤ 0.56) ∧
    (0.88 ≤ (Bed4.colorAt Real.exp (Bed4.coils : List (Coil ℝ)) 0).g ∧
      (Bed4.colorAt Real.exp (Bed4.coils : List (Coil ℝ)) 0).g ≤ 0.98) ∧
    (0.44 ≤ (Bed4.colorAt Real.exp (Bed4.coils : List (Coil ℝ)) 0).b ∧
      (Bed4.colorAt Real.exp (Bed4.coils : List (Coil ℝ)) 0).b ≤ 0.49) := by
  refine ⟨bed4_centre_heat_bounds, bed4_centre_t_bounds, ?_, bed4_centre_colour_bounds⟩
  simp [Bed4.vertexColor]

/-- C9 as stated fails: at radial distance `0` the four sources of `4bed.js`
give `t > 0.1`, a red channel above `0.1`, a green channel above `0.2` and a blue
channel below `0.9`. -/
theorem C9_centre_counterexample :
    ¬ (clamp (Bed4.heatAt Real.exp (Bed4.coils : List (Coil ℝ)) 0 / 300) 0 1 ≤ 0.1) ∧
    ¬ ((Bed4.colorAt Real.exp (Bed4.coils : List (Coil ℝ)) 0).r ≤ 0.1) ∧
    ¬ ((Bed4.colorAt Real.exp (Bed4.coils : List (Coil ℝ)) 0).g ≤ 0.2) ∧
    ¬ ((Bed4.colorAt Real.exp (Bed4.coils : List (Coil ℝ)) 0).b ≥ 0.9) := by
  obtain ⟨ht, _⟩ := bed4_centre_t_bounds
  obtain ⟨⟨hr, _⟩, ⟨hg, _⟩, ⟨_, hb⟩⟩ := bed4_centre_colour_bounds
  refine ⟨?_, ?_, ?_, ?_⟩ <;> intro h <;> norm_num at * <;> linarith

/-! ## Colour mapping identities -/

section MappingLemmas

theorem clamp_eq_half_iff (heat : ℝ) : clamp (heat / 300) 0 1 = 0.5 ↔ heat = 150 := by
  simp only [clamp, max_def, min_def]
  constructor
  · intro h
    split_ifs at h with h1 h2 h3 <;> norm_num at h
    linarith
  · intro h
    rw [h]
    norm_num

theorem heatColor_green_eq_one_iff (heat : ℝ) :
    (heatColor heat).g = 1 ↔ clamp (heat / 300) 0 1 = 0.5 := by
  simp only [heatColor]
  constructor
  · intro h
    have h0 : |clamp (heat / 300) 0 1 - 0.5| = 0 := by linarith
    have := abs_eq_zero.1 h0
    linarith
  · intro h
    rw [h]
    norm_num

end MappingLemmas

/-- C11. Colour mapping identities.  For every real heat value, with
`t = clamp(heat / 300, 0, 1)`, the colour written is exactly
`(t, 1 - |t - 0.5| * 2, 1 - t)`, and this is the colour written by the vertex
loops of `4bed.js`, `main.js` and `main4.js` for the heat they sum.
Consequently red + blue = 1 for every input; the green channel is at most `1`,
equals `1` exactly when `t = 0.5`, which is exactly when `heat = 150`, and is `0`
when `t = 0` and when `t = 1`. -/
theorem C11_colour_mapping (heat : ℝ) :
    heatColor heat =
      ⟨clamp (heat / 300) 0 1, 1 - |clamp (heat / 300) 0 1 - 0.5| * 2,
        1 - clamp (heat / 300) 0 1⟩ ∧
    (∀ (coils : List (Coil ℝ)) (x z : ℝ),
      Bed4.vertexColor Real.sqrt Real.exp coils x z =
        heatColor (Bed4.heatAt Real.exp coils (Real.sqrt (x * x + z * z))) ∧
      Main.vertexColor Real.sqrt Real.exp coils x z =
        heatColor (Main.heatAt Real.exp coils (Real.sqrt (x * x + z * z))) ∧
      Main4.vertexColor Real.sqrt Real.exp coils x z =
        heatColor (Main4.heatAt Real.exp coils (Real.sqrt (x * x + z * z)))) ∧
    (heatColor heat).r + (heatColor heat).b = 1 ∧
    (heatColor heat).g ≤ 1 ∧
    ((heatColor heat).g = 1 ↔ clamp (heat / 300) 0 1 = 0.5) ∧
    (clamp (heat / 300) 0 1 = 0.5 ↔ heat = 150) ∧
    (clamp (heat / 300) 0 1 = 0 → (heatColor heat).g = 0) ∧
    (clamp (heat / 300) 0 1 = 1 → (heatColor heat).g = 0) := by
  refine ⟨rfl, fun _ _ _ => ⟨rfl, rfl, rfl⟩, ?_, (heatColor_channels heat).2.1.2,
    heatColor_green_eq_one_iff heat, clamp_eq_half_iff heat, ?_, ?_⟩
  · simp only [heatColor]; ring
  · intro h
    simp only [heatColor, h]
    norm_num [abs_half]
  · intro h
    simp only [heatColor, h]
    norm_num [abs_half]

/-- Witness of C11: the heats `150`, `0` and `300`, where the colour is
`(0.5, 1, 0.5)`, `(0, 0, 1)` and `(1, 0, 0)`. -/
theorem C11_colour_mapping_witness :
    heatColor (150 : ℝ) = ⟨0.5, 1, 0.5⟩ ∧ (heatColor (150 : ℝ)).g = 1 ∧
    (heatColor (0 : ℝ)).g = 0 ∧ (heatColor (300 : ℝ)).g = 0 := by
  have ht0 : clamp ((0 : ℝ) / 300) 0 1 = 0 := by norm_num [clamp]
  have ht1 : clamp ((300 : ℝ) / 300) 0 1 = 1 := by norm_num [clamp]
  exact ⟨by norm_num [heatColor, clamp],
    (C11_colour_mapping 150).2.2.2.2.1.2 ((C11_colour_mapping 150).2.2.2.2.2.1.2 rfl),
    (C11_colour_mapping 0).2.2.2.2.2.2.1 ht0, (C11_colour_mapping 300).2.2.2.2.2.2.2 ht1⟩

/-! ## The guard of the discrete step -/

section GuardLemmas

variable {α : Type} [LinearOrderedField α]

theorem animateRotation_of_ge (cfg : RotationSettings α) (now : α) (s : RotationState α)
    (h : now - s.lastStepTime ≥ cfg.waitTime) :
    (animateRotation cfg now s).targetRotationY = s.targetRotationY + cfg.stepAngle ∧
    (animateRotation cfg now s).currentStep = (s.currentStep + 1) % cfg.totalSteps ∧
    (animateRotation cfg now s).lastStepTime = now := by
  obtain ⟨h1, h2, h3⟩ := rotateTowardsTarget_frame cfg (startStep cfg now s)
  simp only [animateRotation, h1, h2, h3]
  rw [startStep_of_ge cfg now s h]
  exact ⟨rfl, rfl, rfl⟩

theorem animateRotation_of_lt (cfg : RotationSettings α) (now : α) (s : RotationState α)
    (h : now - s.lastStepTime < cfg.waitTime) :
    (animateRotation cfg now s).targetRotationY = s.targetRotationY ∧
    (animateRotation cfg now s).currentStep = s.currentStep ∧
    (animateRotation cfg now s).lastStepTime = s.lastStepTime := by
  obtain ⟨h1, h2, h3⟩ := rotateTowardsTarget_frame cfg (startStep cfg now s)
  simp only [animateRotation, h1, h2, h3]
  rw [startStep_of_lt cfg now s h]
  exact ⟨rfl, rfl, rfl⟩

theorem bed4_stepAngle_pos : 0 < (Bed4.settings Real.pi).stepAngle := by
  simp only [Bed4.settings, degToRad]
  have := Real.pi_pos
  positivity

end GuardLemmas

/-- C12, as amended.  In the rotation scheduler of `animate`, with a step angle
that is not zero: when the elapsed time `now - lastStepTime` is at least
`waitTime` (equality included), the tick performs the discrete step
(`targetRotationY += stepAngle`, `currentStep = (currentStep + 1) mod
totalSteps`, `lastStepTime = now`); when it is less than `waitTime`, the tick
leaves `targetRotationY`, `currentStep` and `lastStepTime` unchanged; so the
target advances by `stepAngle` if and only if the elapsed time is at least
`waitTime`. -/
theorem C12_step_iff_wait_reached (cfg : RotationSettings ℝ) (s : RotationState ℝ) (now : ℝ)
    (hangle : cfg.stepAngle ≠ 0) :
    (now - s.lastStepTime ≥ cfg.waitTime →
      (animateRotation cfg now s).targetRotationY = s.targetRotationY + cfg.stepAngle ∧
      (animateRotation cfg now s).currentStep = (s.currentStep + 1) % cfg.totalSteps ∧
      (animateRotation cfg now s).lastStepTime = now) ∧
    (now - s.lastStepTime < cfg.waitTime →
      (animateRotation cfg now s).targetRotationY = s.targetRotationY ∧
      (animateRotation cfg now s).currentStep = s.currentStep ∧
      (animateRotation cfg now s).lastStepTime = s.lastStepTime) ∧
    ((animateRotation cfg now s).targetRotationY = s.targetRotationY + cfg.stepAngle ↔
      now - s.lastStepTime ≥ cfg.waitTime) := by
  refine ⟨animateRotation_of_ge cfg now s, animateRotation_of_lt cfg now s, ?_, ?_⟩
  · intro h
    by_contra hlt
    have h2 := (animateRotation_of_lt cfg now s (not_le.1 hlt)).1
    rw [h2] at h
    exact hangle (by linarith)
  · exact fun h => (animateRotation_of_ge cfg now s h).1

/-- Witness of C12: the settings of `4bed.js`, last step at time `0`; the tick at
time `16` leaves the three variables unchanged. -/
theorem C12_step_iff_wait_reached_witness :
    (Bed4.settings Real.pi).stepAngle ≠ 0 ∧
    (16 : ℝ) - 0 < (Bed4.settings Real.pi).waitTime ∧
    (animateRotation (Bed4.settings Real.pi) 16 ⟨0, 0, 0, 0⟩).targetRotationY = 0 ∧
    (animateRotation (Bed4.settings Real.pi) 16 ⟨0, 0, 0, 0⟩).currentStep = 0 ∧
    (animateRotation (Bed4.settings Real.pi) 16 ⟨0, 0, 0, 0⟩).lastStepTime = 0 :=
  ⟨bed4_stepAngle_pos.ne', by norm_num [Bed4.settings],
    (C12_step_iff_wait_reached (Bed4.settings Real.pi) ⟨0, 0, 0, 0⟩ 16
      bed4_stepAngle_pos.ne').2.1 (by norm_num [Bed4.settings])⟩

/-- C12 as stated fails when the elapsed time equals `waitTime`: with the
settings of `4bed.js` and the last step at time `0`, at the tick at time `5000`
the elapsed time does not exceed `waitTime = 5000`, yet the step happens:
`currentStep` becomes `1`, `lastStepTime` becomes `5000` and `targetRotationY`
becomes `degToRad(72)`, which is not `0`. -/
theorem C12_equal_wait_counterexample :
    ¬ ((5000 : ℝ) - 0 > (Bed4.settings Real.pi).waitTime) ∧
    (animateRotation (Bed4.settings Real.pi) 5000 ⟨0, 0, 0, 0⟩).currentStep = 1 ∧
    (animateRotation (Bed4.settings Real.pi) 5000 ⟨0, 0, 0, 0⟩).lastStepTime = 5000 ∧
    (animateRotation (Bed4.settings Real.pi) 5000 ⟨0, 0, 0, 0⟩).targetRotationY =
      0 + degToRad Real.pi 72 ∧
    ¬ ((animateRotation (Bed4.settings Real.pi) 5000 ⟨0, 0, 0, 0⟩).targetRotationY = 0) ∧
    ¬ ((animateRotation (Bed4.settings Real.pi) 5000 ⟨0, 0, 0, 0⟩).currentStep = 0) ∧
    ¬ ((animateRotation (Bed4.settings Real.pi) 5000 ⟨0, 0, 0, 0⟩).lastStepTime = 0) := by
  obtain ⟨h1, h2, h3⟩ := animateRotation_of_ge (Bed4.settings Real.pi) 5000 ⟨0, 0, 0, 0⟩
    (by norm_num [Bed4.settings])
  have hpos := bed4_stepAngle_pos
  refine ⟨by norm_num [Bed4.settings], ?_, h3, h1, ?_, ?_, ?_⟩
  · rw [h2]; rfl
  · rw [h1]; simp only [zero_add]; exact hpos.ne'
  · rw [h2]; decide
  · rw [h3]; norm_num

end HeatSeal
